import Mathlib

/-!
Verification of the Cortex/Subvox short-term-memory (STM) subsystem.

The Python sources are shallowly embedded: strings are modelled as
List Char, the Redis key-value store as an explicit Store record, and
each hook invocation as a pure state-transition function.  All
definitions are translated from src/subvox/src/subvox/stop_hook.py,
src/subvox/src/subvox/prompt_hook.py, src/subvox/src/subvox/config.py
and src/cortex/src/cortex/main.py, except where a doc comment says
the definition is modelled from the spec.
-/

set_option maxRecDepth 4000

/-- Convert a Lean string literal to the List Char representation used
throughout the embedding. -/
def chars (s : String) : List Char := s.data

/-- Characters treated as whitespace by Python str.strip (ASCII subset:
space, tab, newline, carriage return, vertical tab, form feed). -/
def isPyWs (c : Char) : Bool :=
  c == ' ' || c == '\t' || c == '\n' || c == '\r' ||
  c == Char.ofNat 11 || c == Char.ofNat 12

/-- Python str.strip(): drop whitespace from both ends. -/
def pyStrip (s : List Char) : List Char :=
  ((s.dropWhile isPyWs).reverse.dropWhile isPyWs).reverse

/-- Python str.lower(), restricted to ASCII letters (the only case the
sentinel comparison in parse_memorables can meet). -/
def pyLower (s : List Char) : List Char := s.map Char.toLower

/-- Python str.split(sep) for a single-character separator: keeps empty
pieces, and the empty string splits to one empty piece. -/
def pySplit (sep : Char) : List Char → List (List Char)
  | [] => [[]]
  | c :: rest =>
    let r := pySplit sep rest
    if c == sep then
      [] :: r
    else
      match r with
      | [] => [[c]]
      | h :: t => (c :: h) :: t

/-- Index of the first occurrence of substring pat in s (re.search
leftmost-match order), if any. -/
def findSubstrIdx (pat : List Char) : List Char → Option Nat
  | [] => if List.isPrefixOf pat [] then some 0 else none
  | c :: rest =>
    if List.isPrefixOf pat (c :: rest) then some 0
    else (findSubstrIdx pat rest).map (· + 1)

/-- The regex search in parse_memorables
(re.search applied to the memorables tag pair with a lazy group, DOTALL):
the match starts at the first opening tag and the lazy group ends at the
first closing tag after it; returns the group content, or none when no
such pair exists. -/
def extractTag (response : List Char) : Option (List Char) :=
  match findSubstrIdx (chars "<memorables>") response with
  | none => none
  | some i =>
    let after := response.drop (i + (chars "<memorables>").length)
    match findSubstrIdx (chars "</memorables>") after with
    | none => none
    | some j => some (after.take j)

/-- The sentinel tuple compared against content.lower() in
parse_memorables. -/
def sentinelSet : List (List Char) :=
  [chars "", chars "none", chars "nothing notable", chars "nothing notable."]

/-- The body of the bullet-point loop in parse_memorables (stop_hook.py
lines 62-67): strip the line; a line with a leading dash or star bullet
contributes the stripped remainder after the two-character marker; a
non-empty line not starting with an angle bracket contributes itself;
any other line contributes nothing. -/
def memorableLineStep (acc : List (List Char)) (line : List Char) : List (List Char) :=
  if List.isPrefixOf (chars "- ") (pyStrip line) ||
      List.isPrefixOf (chars "* ") (pyStrip line) then
    acc ++ [pyStrip ((pyStrip line).drop 2)]
  else if pyStrip line ≠ [] ∧ (pyStrip line).head? ≠ some '<' then
    acc ++ [pyStrip line]
  else acc

/-- Translation of parse_memorables (stop_hook.py lines 47-69): extract
the tag content, return [] when absent or when the trimmed content is a
case-insensitive sentinel, otherwise process the lines with the
bullet-stripping loop and drop empty results. -/
def parse_memorables (response : List Char) : List (List Char) :=
  match extractTag response with
  | none => []
  | some raw =>
    let content := pyStrip raw
    if content = [] ∨ pyLower content ∈ sentinelSet then []
    else
      ((pySplit '\n' content).foldl memorableLineStep []).filter (fun m => m ≠ [])

example : parse_memorables (chars "<memorables>- a\n- b</memorables>") = [chars "a", chars "b"] := by decide
example : parse_memorables (chars "<memorables>none</memorables>") = [] := by decide
example : parse_memorables (chars "no tag here") = [] := by decide
example : parse_memorables (chars "<memorables>- <a></memorables>") = [chars "<a>"] := by decide
example : parse_memorables (chars "x<memorables> Nothing Notable. </memorables>y") = [] := by decide
example : parse_memorables (chars "<memorables>* Likes Sam\n* Wants reminder</memorables>") = [chars "Likes Sam", chars "Wants reminder"] := by decide

/-- One item of a JSON message.content list: a text block (carrying its
text field, empty when the field is missing), a bare string element, or
a dict block with another type tag (tool_use, tool_result, ...), which
both scans skip. -/
inductive ContentItem where
  | text (s : List Char)
  | bare (s : List Char)
  | typed (t : List Char)
deriving DecidableEq

/-- A message.content payload: either a plain JSON string or a list of
typed blocks.  A missing content key behaves like items [] in both
scans and is modelled as such. -/
inductive Content where
  | str (s : List Char)
  | items (l : List ContentItem)
deriving DecidableEq

/-- One line of the transcript JSONL: a user event, an assistant event,
an event of another type, or a line that fails JSON decoding (both
scans skip malformed lines). -/
inductive Line where
  | user (c : Content)
  | assistant (c : Content)
  | other
  | malformed
deriving DecidableEq

/-- One conversational round, as extracted by the stop hook. -/
structure Exchange where
  user_message : List Char
  assistant_messages : List (List Char)
deriving DecidableEq

/-- Text extraction from a user event's content (stop_hook.py lines
126-141): a bare string is taken whole; in a block list, text blocks and
bare string elements are collected and joined with a newline, while
tool_result and other typed blocks are skipped. -/
def extractUserText : Content → List Char
  | Content.str s => s
  | Content.items l =>
    List.intercalate (chars "\n")
      (l.filterMap fun it =>
        match it with
        | ContentItem.text s => some s
        | ContentItem.bare s => some s
        | ContentItem.typed _ => none)

/-- A user event qualifies when its extracted text is non-empty after
trimming (stop_hook.py line 152). -/
def userQualifies : Line → Bool
  | Line.user c => !(pyStrip (extractUserText c)).isEmpty
  | _ => false

/-- Whether the line at index k of the transcript is a qualifying
user-text event. -/
def qualAt (lines : List Line) (k : Nat) : Bool :=
  match lines.get? k with
  | some l => userQualifies l
  | none => false

/-- The backward scan of stop_hook.py lines 108-158: the index of the
most recent qualifying user event together with its (untrimmed)
extracted text, or none when no user event qualifies. -/
def lastUserWithText : List Line → Option (Nat × List Char)
  | [] => none
  | l :: rest =>
    match lastUserWithText rest with
    | some (i, m) => some (i + 1, m)
    | none =>
      match l with
      | Line.user c =>
        if !(pyStrip (extractUserText c)).isEmpty then some (0, extractUserText c)
        else none
      | _ => none

/-- The body of the block loop in the forward scan (stop_hook.py lines
191-196): a text block whose text is non-empty after stripping appends
its stripped text; tool_use and every other block kind is skipped. -/
def assistantBlockStep (acc : List (List Char)) (it : ContentItem) : List (List Char) :=
  match it with
  | ContentItem.text s =>
    if (pyStrip s).isEmpty then acc else acc ++ [pyStrip s]
  | _ => acc

/-- Contribution of one transcript line to the forward scan: an
assistant event with a block list contributes its text blocks folded
with assistantBlockStep; every other line contributes nothing. -/
def assistantLineTexts : Line → List (List Char)
  | Line.assistant (Content.items its) => its.foldl assistantBlockStep []
  | _ => []

/-- The forward scan of stop_hook.py lines 177-196 over the lines after
the selected user event: from each assistant event with a block-list
content, collect the stripped text of every text block that is
non-empty after stripping; a string content is iterated as characters
by Python, none of which is a dict, so it contributes nothing; other
event types and malformed lines contribute nothing. -/
def assistant_texts : List Line → List (List Char)
  | [] => []
  | l :: rest => assistantLineTexts l ++ assistant_texts rest

/-- Translation of parse_transcript_backwards (stop_hook.py lines
72-213).  The input is none when the transcript file does not exist.
Returns none when no user event with non-blank text is found; otherwise
the Exchange made of that event's text and the assistant texts
collected forward from the line after it to end of file. -/
def parse_transcript_backwards : Option (List Line) → Option Exchange
  | none => none
  | some lines =>
    match lastUserWithText lines with
    | none => none
    | some (i, m) => some ⟨m, assistant_texts (lines.drop (i + 1))⟩

example :
    parse_transcript_backwards
      (some [Line.user (Content.str (chars "remind me to call Sam")),
             Line.assistant (Content.items [ContentItem.text (chars "Got it.")])]) =
      some ⟨chars "remind me to call Sam", [chars "Got it."]⟩ := by decide

example :
    parse_transcript_backwards
      (some [Line.user (Content.items [ContentItem.typed (chars "tool_result")])]) = none := by decide

example :
    parse_transcript_backwards
      (some [Line.user (Content.str (chars "hi")),
             Line.assistant (Content.items [ContentItem.text (chars "yo"), ContentItem.typed (chars "tool_use")]),
             Line.user (Content.items [ContentItem.typed (chars "tool_result")]),
             Line.assistant (Content.items [ContentItem.text (chars "done")])]) =
      some ⟨chars "hi", [chars "yo", chars "done"]⟩ := by decide

/-- One entry of the Redis STM messages list: either json.dumps of an
Exchange (which json.loads recovers) or a corrupt byte string that
fails to decode. -/
inductive StmEntry where
  | good (e : Exchange)
  | corrupt (raw : List Char)
deriving DecidableEq

/-- json.loads applied to a buffer entry, as used by
build_conversation_from_stm: succeeds exactly on serialized exchanges. -/
def deser : StmEntry → Option Exchange
  | StmEntry.good e => some e
  | StmEntry.corrupt _ => none

/-- The Redis state visible to this subsystem: the stm:messages list
(head = most recently lpushed entry), the stm:memorables string value
(none when the key is absent or expired), and their TTLs. -/
structure Store where
  messages : List StmEntry
  messagesTTL : Option Nat
  memorables : Option (List Char)
  memorablesTTL : Option Nat
deriving DecidableEq

/-- STM_TTL from config.py: one hour, in seconds. -/
def STM_TTL : Nat := 3600

/-- Redis LPUSH: prepends the entry at the head of the list. -/
def lpush (e : StmEntry) (buf : List StmEntry) : List StmEntry := e :: buf

/-- A sequence of appends (oldest first) executed against an initially
empty buffer, each via lpush as in stop_hook.py line 325. -/
def appendAll (ops : List StmEntry) : List StmEntry :=
  ops.foldl (fun buf e => lpush e buf) []

/-- Translation of format_exchange (stop_hook.py lines 216-223). -/
def format_exchange (ex : Exchange) : List Char :=
  List.intercalate (chars "\n\n")
    ((chars "Jeffery: " ++ ex.user_message) ::
      ex.assistant_messages.map (fun m => chars "Alpha: " ++ m))

/-- The read half of build_conversation_from_stm (stop_hook.py lines
229-237): LRANGE the whole list, iterate it reversed (oldest first),
json.loads each entry and skip entries that fail to decode. -/
def stm_read_exchanges (buf : List StmEntry) : List Exchange :=
  buf.reverse.foldl (fun acc e =>
    match deser e with
    | some ex => acc ++ [ex]
    | none => acc) []

/-- Translation of build_conversation_from_stm (stop_hook.py lines
226-239): format each successfully decoded exchange, oldest first, and
join with the separator. -/
def build_conversation_from_stm (buf : List StmEntry) : List Char :=
  List.intercalate (chars "\n\n---\n\n")
    ((stm_read_exchanges buf).map format_exchange)

/-- The response post-processing of ask_olmo (stop_hook.py line 272):
the generated text is stripped before being returned to main.  The
transport outcome of the HTTP call itself (timeout, connection failure,
non-success status) is modelled by the Except value fed to
stop_hook_main. -/
def ask_olmo (resp : List Char) : List Char := pyStrip resp

/-- The joined form stored as the new memorables value (stop_hook.py
line 367): one line per item, each prefixed with a dash bullet. -/
def cleanMemorables (items : List (List Char)) : List Char :=
  List.intercalate (chars "\n") (items.map (fun m => chars "- " ++ m))

/-- Translation of the stop hook's main (stop_hook.py lines 292-371) as
a state transition on the Redis store.  stdinValid models whether stdin
held valid JSON; hasPath whether it carried a transcript_path;
transcript is none when the file is missing; connectOk models
redis.from_url succeeding; templateOk whether the prompt template file
exists; olmo is the outcome of the model call (Except.error for
timeout, connection failure, or a raise_for_status error).  Early
returns leave the store exactly as it was at that point. -/
def stop_hook_main (st : Store) (stdinValid hasPath : Bool)
    (transcript : Option (List Line)) (connectOk templateOk : Bool)
    (olmo : Except Unit (List Char)) : Store :=
  if stdinValid = false then st
  else if hasPath = false then st
  else
    match parse_transcript_backwards transcript with
    | none => st
    | some ex =>
      if connectOk = false then st
      else
        let st1 : Store :=
          { st with messages := lpush (StmEntry.good ex) st.messages,
                    messagesTTL := some STM_TTL }
        if templateOk = false then st1
        else
          match olmo with
          | Except.error _ => st1
          | Except.ok resp =>
            let items := parse_memorables (ask_olmo resp)
            if items.isEmpty then st1
            else { st1 with memorables := some (cleanMemorables items),
                            memorablesTTL := some STM_TTL }

/-- The fixed envelope printed by the prompt hook around a non-blank
memorables value (prompt_hook.py lines 49-54; print appends a final
newline). -/
def subvoxWrap (s : List Char) : List Char :=
  chars "\n<subvox>\nUse Cortex. Suggested memories to store:\n" ++ s ++
    chars "\n</subvox>\n\n"

/-- Translation of the prompt hook's main (prompt_hook.py lines 22-58):
returns the (unchanged) store and the text emitted to stdout, if any.
stdinValid models whether stdin held valid JSON (invalid input is
tolerated and changes nothing); connectOk models redis.from_url and the
GET succeeding — on a Redis error the hook returns without output. -/
def prompt_hook_main (st : Store) (_stdinValid connectOk : Bool) :
    Store × Option (List Char) :=
  if connectOk = false then (st, none)
  else
    match st.memorables with
    | none => (st, none)
    | some m =>
      if m ≠ [] ∧ pyStrip m ≠ [] then (st, some (subvoxWrap m))
      else (st, none)

/-- Modelled from the spec: the consumer of the confirmation signal.
Cortex only publishes the signal on a successful durable write
(cortex/main.py lines 117-124, the cortex stored channel); the
subscriber that reacts to it ("Intro", per the comment there) is not
part of the repository sources.  Per the spec, on receipt it clears
both the STM buffer and the Memorables Blob unconditionally (deleting
both keys), regardless of the current state. -/
def intro_confirmation_flush (_st : Store) : Store :=
  { messages := [], messagesTTL := none, memorables := none, memorablesTTL := none }

example :
    stop_hook_main ⟨[], none, some (chars "- stale"), some 99⟩ true true
      (some [Line.user (Content.str (chars "hi"))]) true true
      (Except.ok (chars "<memorables>none</memorables>")) =
    ⟨[StmEntry.good ⟨chars "hi", []⟩], some 3600, some (chars "- stale"), some 99⟩ := by decide

example :
    stop_hook_main ⟨[], none, none, none⟩ true true
      (some [Line.user (Content.str (chars "hi"))]) true true
      (Except.ok (chars "<memorables>- a</memorables>")) =
    ⟨[StmEntry.good ⟨chars "hi", []⟩], some 3600, some (chars "- a"), some 3600⟩ := by decide

example :
    prompt_hook_main ⟨[], none, some (chars "- x"), some 10⟩ true true =
      (⟨[], none, some (chars "- x"), some 10⟩, some (subvoxWrap (chars "- x"))) := by decide

example : prompt_hook_main ⟨[], none, some (chars "  "), some 10⟩ true true =
    (⟨[], none, some (chars "  "), some 10⟩, none) := by decide

/-- C1: on receipt of the external confirmation signal the consumer
clears both the STM buffer and the Memorables Blob unconditionally,
regardless of the current state; in particular a state with a buffer of
3 entries and a non-empty blob ends with an empty buffer and an empty
blob.  The consumer is modelled from the spec: the repository sources
only contain the publisher side (cortex/main.py store_memory). -/
theorem claim_C1 :
    (∀ st : Store, intro_confirmation_flush st =
      { messages := [], messagesTTL := none, memorables := none, memorablesTTL := none }) ∧
    (∀ st : Store, st.messages.length = 3 → st.memorables ≠ none →
      (intro_confirmation_flush st).messages = [] ∧
      (intro_confirmation_flush st).memorables = none) :=
  ⟨fun _ => rfl, fun _ _ _ => ⟨rfl, rfl⟩⟩

theorem claim_C1_witness :
    (intro_confirmation_flush
      ⟨[StmEntry.corrupt [], StmEntry.corrupt [], StmEntry.corrupt []],
        some 5, some (chars "- x"), some 5⟩).messages = [] ∧
    (intro_confirmation_flush
      ⟨[StmEntry.corrupt [], StmEntry.corrupt [], StmEntry.corrupt []],
        some 5, some (chars "- x"), some 5⟩).memorables = none :=
  claim_C1.2 _ (by decide) (by decide)

/-- C2 counterexample: in an invocation whose distillation yields no
memorable items the code leaves the Memorables Blob untouched — it is
never cleared (the stale value persists), contradicting the claim that
the blob is cleared on this path. -/
theorem claim_C2_cex :
    parse_memorables (ask_olmo (chars "<memorables>none</memorables>")) = [] ∧
    (stop_hook_main ⟨[], none, some (chars "- stale"), some 99⟩ true true
        (some [Line.user (Content.str (chars "hi"))]) true true
        (Except.ok (chars "<memorables>none</memorables>"))).memorables
      = some (chars "- stale") ∧
    (stop_hook_main ⟨[], none, some (chars "- stale"), some 99⟩ true true
        (some [Line.user (Content.str (chars "hi"))]) true true
        (Except.ok (chars "<memorables>none</memorables>"))).memorables ≠ none := by
  decide

/-- C2 amended: for every stop-hook invocation in which distillation
yields no memorable items, the new Exchange is appended to the STM
Buffer (with its TTL reset) and the buffer is not cleared; the
Memorables Blob is left unchanged — it is not cleared, so a stale blob
from an earlier cycle persists until TTL expiry or an external flush. -/
theorem claim_C2_amended (st : Store) (tr : Option (List Line)) (ex : Exchange)
    (resp : List Char) (hex : parse_transcript_backwards tr = some ex)
    (hmem : parse_memorables (ask_olmo resp) = []) :
    stop_hook_main st true true tr true true (Except.ok resp) =
      { st with messages := StmEntry.good ex :: st.messages,
                messagesTTL := some STM_TTL } := by
  unfold stop_hook_main
  rw [hex]
  simp [lpush, hmem]

theorem claim_C2_amended_witness :
    stop_hook_main ⟨[], none, some (chars "- stale"), some 99⟩ true true
        (some [Line.user (Content.str (chars "hi"))]) true true
        (Except.ok (chars "<memorables>none</memorables>")) =
      ⟨[StmEntry.good ⟨chars "hi", []⟩], some STM_TTL, some (chars "- stale"), some 99⟩ :=
  claim_C2_amended _ _ _ _ (by decide) (by decide)

/-- C5: the response parser yields the two items for a dashed list, the
empty list for the sentinel none, the empty list when no memorables tag
is present, and in general the empty list whenever the tag content
trims to the empty string or case-insensitively equals a sentinel. -/
theorem claim_C5 :
    parse_memorables (chars "<memorables>- a\n- b</memorables>") = [chars "a", chars "b"] ∧
    parse_memorables (chars "<memorables>none</memorables>") = [] ∧
    parse_memorables (chars "no tag here") = [] ∧
    (∀ response, extractTag response = none → parse_memorables response = []) ∧
    (∀ response raw, extractTag response = some raw →
      pyStrip raw = [] ∨ pyLower (pyStrip raw) ∈ sentinelSet →
      parse_memorables response = []) := by
  refine ⟨by decide, by decide, by decide, ?_, ?_⟩
  · intro response h
    unfold parse_memorables
    rw [h]
  · intro response raw h hs
    unfold parse_memorables
    rw [h]
    simp only []
    rw [if_pos hs]

theorem claim_C5_witness :
    parse_memorables (chars "ok <memorables> NONE </memorables> bye") = [] :=
  claim_C5.2.2.2.2 _ (chars " NONE ") (by decide) (by decide)

/-- C7: when the model call fails (timeout, connection failure, or a
non-success response, all surfacing as an exception from ask_olmo), the
invocation returns without mutating the Memorables Blob and without any
buffer mutation beyond the initial append: the final state is exactly
the pre-invocation state with the Exchange prepended and the buffer TTL
reset. -/
theorem claim_C7 (st : Store) (tr : Option (List Line)) (ex : Exchange)
    (hex : parse_transcript_backwards tr = some ex) :
    stop_hook_main st true true tr true true (Except.error ()) =
      { st with messages := StmEntry.good ex :: st.messages,
                messagesTTL := some STM_TTL } ∧
    (stop_hook_main st true true tr true true (Except.error ())).memorables
      = st.memorables := by
  unfold stop_hook_main
  rw [hex]
  simp [lpush]

theorem claim_C7_witness :
    stop_hook_main ⟨[StmEntry.corrupt []], some 7, some (chars "- m"), some 7⟩ true true
        (some [Line.user (Content.str (chars "hi"))]) true true (Except.error ()) =
      ⟨[StmEntry.good ⟨chars "hi", []⟩, StmEntry.corrupt []], some STM_TTL,
        some (chars "- m"), some 7⟩ :=
  (claim_C7 _ _ _ (by decide)).1

/-- C9 counterexample: on a non-blank blob the prompt hook does not
emit exactly the blob's content — it emits the content embedded in a
fixed subvox envelope. -/
theorem claim_C9_cex :
    (prompt_hook_main ⟨[], none, some (chars "- x"), some 10⟩ true true).2
      ≠ some (chars "- x") ∧
    (prompt_hook_main ⟨[], none, some (chars "- x"), some 10⟩ true true).2
      = some (subvoxWrap (chars "- x")) := by
  decide

/-- C9 amended: the Reminder Reader never mutates store state; with the
store unavailable it emits nothing; on an absent blob it emits nothing;
on a blob that is blank after trimming it emits nothing; and on a
non-blank blob it emits the blob's content verbatim, embedded in the
fixed subvox envelope (rather than the bare content alone). -/
theorem claim_C9_amended :
    (∀ st sv conn, (prompt_hook_main st sv conn).1 = st) ∧
    (∀ st sv, prompt_hook_main st sv false = (st, none)) ∧
    (∀ st sv conn, st.memorables = none → (prompt_hook_main st sv conn).2 = none) ∧
    (∀ st sv conn m, st.memorables = some m → pyStrip m = [] →
      (prompt_hook_main st sv conn).2 = none) ∧
    (∀ st sv m, st.memorables = some m → pyStrip m ≠ [] →
      prompt_hook_main st sv true = (st, some (subvoxWrap m))) := by
  refine ⟨?_, ?_, ?_, ?_, ?_⟩
  · intro st sv conn
    unfold prompt_hook_main
    split
    · rfl
    · split
      · rfl
      · split
        · rfl
        · rfl
  · intro st sv
    simp [prompt_hook_main]
  · intro st sv conn h
    cases conn <;> simp [prompt_hook_main, h]
  · intro st sv conn m h h2
    cases conn <;> simp [prompt_hook_main, h, h2]
  · intro st sv m h h2
    have hm : m ≠ [] := by
      intro e
      subst e
      exact h2 rfl
    simp [prompt_hook_main, h, hm, h2]

theorem claim_C9_amended_witness :
    prompt_hook_main ⟨[], none, some (chars "- x"), some 10⟩ true true =
      (⟨[], none, some (chars "- x"), some 10⟩, some (subvoxWrap (chars "- x"))) :=
  claim_C9_amended.2.2.2.2 _ true _ rfl (by decide)

/-- Declarative per-line description of the amended bullet-point
grammar: a bulleted line contributes the trimmed remainder after its
marker (even when that remainder starts with an angle bracket); a
non-bulleted line is dropped when empty or markup-like and contributes
itself otherwise. -/
def lineItemSpec (line : List Char) : Option (List Char) :=
  if List.isPrefixOf (chars "- ") (pyStrip line) ||
      List.isPrefixOf (chars "* ") (pyStrip line) then
    some (pyStrip ((pyStrip line).drop 2))
  else if pyStrip line ≠ [] ∧ (pyStrip line).head? ≠ some '<' then
    some (pyStrip line)
  else none

theorem memorableLineStep_eq (acc : List (List Char)) (line : List Char) :
    memorableLineStep acc line = acc ++ (lineItemSpec line).toList := by
  unfold memorableLineStep lineItemSpec
  by_cases h1 : (List.isPrefixOf (chars "- ") (pyStrip line) ||
      List.isPrefixOf (chars "* ") (pyStrip line)) = true
  · simp [h1]
  · by_cases h2 : pyStrip line ≠ [] ∧ (pyStrip line).head? ≠ some '<'
    · simp [h1, h2]
    · simp [h1, h2]

theorem memorables_foldl_eq (ls : List (List Char)) : ∀ acc,
    ls.foldl memorableLineStep acc = acc ++ ls.filterMap lineItemSpec := by
  induction ls with
  | nil => intro acc; simp
  | cons line rest ih =>
    intro acc
    rw [List.foldl_cons, memorableLineStep_eq, ih, List.filterMap_cons]
    cases lineItemSpec line <;> simp

/-- C6 counterexample: a bulleted line whose content starts with an
angle bracket is not dropped — its content is returned as an item, so a
line whose content starts with an angle bracket can appear among the
returned items. -/
theorem claim_C6_cex :
    parse_memorables (chars "<memorables>- <a></memorables>") = [chars "<a>"] ∧
    (chars "<a>") ∈ parse_memorables (chars "<memorables>- <a></memorables>") ∧
    (chars "<a>").head? = some '<' := by
  decide

/-- C6 amended: after splitting the tag content on newlines, each
trimmed line is processed as follows — a line starting with a list
bullet contributes the trimmed remainder after the marker, even when
that remainder starts with an angle bracket; only non-bulleted lines
that look like markup (start with an angle bracket) are dropped; empty
lines are dropped; order is preserved.  Consequently an item starting
with an angle bracket can only arise from a bulleted line. -/
theorem claim_C6_amended (response raw : List Char)
    (h : extractTag response = some raw)
    (hs : ¬(pyStrip raw = [] ∨ pyLower (pyStrip raw) ∈ sentinelSet)) :
    parse_memorables response =
      ((pySplit '\n' (pyStrip raw)).filterMap lineItemSpec).filter (fun m => m ≠ []) ∧
    ∀ m ∈ parse_memorables response,
      m ≠ [] ∧ (m.head? = some '<' →
        ∃ line ∈ pySplit '\n' (pyStrip raw),
          (List.isPrefixOf (chars "- ") (pyStrip line) ||
            List.isPrefixOf (chars "* ") (pyStrip line)) = true ∧
          m = pyStrip ((pyStrip line).drop 2)) := by
  have heq : parse_memorables response =
      ((pySplit '\n' (pyStrip raw)).filterMap lineItemSpec).filter (fun m => m ≠ []) := by
    unfold parse_memorables
    rw [h]
    simp only [if_neg hs]
    rw [memorables_foldl_eq]
    simp
  refine ⟨heq, ?_⟩
  intro m hm
  rw [heq, List.mem_filter] at hm
  obtain ⟨hm1, hm2⟩ := hm
  refine ⟨by simpa using hm2, ?_⟩
  intro hlt
  obtain ⟨line, hline, hspec⟩ := List.mem_filterMap.mp hm1
  refine ⟨line, hline, ?_⟩
  unfold lineItemSpec at hspec
  by_cases h1 : (List.isPrefixOf (chars "- ") (pyStrip line) ||
      List.isPrefixOf (chars "* ") (pyStrip line)) = true
  · rw [if_pos h1] at hspec
    exact ⟨h1, (Option.some.inj hspec).symm⟩
  · rw [if_neg h1] at hspec
    by_cases h2 : pyStrip line ≠ [] ∧ (pyStrip line).head? ≠ some '<'
    · rw [if_pos h2] at hspec
      rw [← Option.some.inj hspec] at hlt
      exact absurd hlt h2.2
    · rw [if_neg h2] at hspec
      exact Option.noConfusion hspec

theorem claim_C6_amended_witness :
    parse_memorables (chars "<memorables>- a\nx</memorables>") =
      ((pySplit '\n' (pyStrip (chars "- a\nx"))).filterMap lineItemSpec).filter
        (fun m => m ≠ []) :=
  (claim_C6_amended (chars "<memorables>- a\nx</memorables>") (chars "- a\nx")
    (by decide) (by decide)).1

theorem appendAll_foldl_eq (ops : List StmEntry) : ∀ acc,
    ops.foldl (fun buf e => lpush e buf) acc = ops.reverse ++ acc := by
  induction ops with
  | nil => intro acc; simp
  | cons o rest ih =>
    intro acc
    rw [List.foldl_cons]
    rw [ih (lpush o acc)]
    simp [lpush]

theorem read_foldl_eq (l : List StmEntry) : ∀ acc,
    l.foldl (fun acc e =>
      match deser e with
      | some ex => acc ++ [ex]
      | none => acc) acc = acc ++ l.filterMap deser := by
  induction l with
  | nil => intro acc; simp
  | cons e rest ih =>
    intro acc
    rw [List.foldl_cons, List.filterMap_cons]
    cases hd : deser e <;> simp [hd, ih]

/-- C8: a sequence of appends (each a physical prepend onto the backing
list) interleaved with arbitrary corrupt entries replays as exactly the
well-formed exchanges in append (chronological, oldest-first) order:
entries that fail to deserialize are skipped without failing the read,
and the built conversation is the join of the formatted exchanges in
that order. -/
theorem claim_C8 (ops : List StmEntry) :
    stm_read_exchanges (appendAll ops) = ops.filterMap deser ∧
    build_conversation_from_stm (appendAll ops) =
      List.intercalate (chars "\n\n---\n\n")
        ((ops.filterMap deser).map format_exchange) := by
  have h1 : appendAll ops = ops.reverse := by
    unfold appendAll
    rw [appendAll_foldl_eq]
    simp
  have h2 : stm_read_exchanges (appendAll ops) = ops.filterMap deser := by
    unfold stm_read_exchanges
    rw [h1, List.reverse_reverse, read_foldl_eq]
    simp
  exact ⟨h2, by unfold build_conversation_from_stm; rw [h2]⟩

/-- C10: across every stop-hook invocation, whatever the outcome, the
STM buffer is only ever appended to (one entry prepended at the head
with the TTL reset) or left untouched — never cleared, truncated,
mutated or reordered — and the only blob mutation is overwriting it
with the newly parsed non-empty items (with the blob TTL reset); the
blob is never cleared by this hook. -/
theorem claim_C10 (st : Store) (sv hp : Bool) (tr : Option (List Line))
    (conn tmpl : Bool) (olmo : Except Unit (List Char)) :
    (((stop_hook_main st sv hp tr conn tmpl olmo).messages = st.messages ∧
      (stop_hook_main st sv hp tr conn tmpl olmo).messagesTTL = st.messagesTTL) ∨
     (∃ ex, parse_transcript_backwards tr = some ex ∧
       (stop_hook_main st sv hp tr conn tmpl olmo).messages =
         StmEntry.good ex :: st.messages ∧
       (stop_hook_main st sv hp tr conn tmpl olmo).messagesTTL = some STM_TTL)) ∧
    (((stop_hook_main st sv hp tr conn tmpl olmo).memorables = st.memorables ∧
      (stop_hook_main st sv hp tr conn tmpl olmo).memorablesTTL = st.memorablesTTL) ∨
     (∃ resp, olmo = Except.ok resp ∧ parse_memorables (ask_olmo resp) ≠ [] ∧
       (stop_hook_main st sv hp tr conn tmpl olmo).memorables =
         some (cleanMemorables (parse_memorables (ask_olmo resp))) ∧
       (stop_hook_main st sv hp tr conn tmpl olmo).memorablesTTL = some STM_TTL)) := by
  cases sv with
  | false => exact ⟨Or.inl ⟨rfl, rfl⟩, Or.inl ⟨rfl, rfl⟩⟩
  | true =>
    cases hp with
    | false => exact ⟨Or.inl ⟨rfl, rfl⟩, Or.inl ⟨rfl, rfl⟩⟩
    | true =>
      cases htr : parse_transcript_backwards tr with
      | none =>
        unfold stop_hook_main
        rw [htr]
        exact ⟨Or.inl ⟨rfl, rfl⟩, Or.inl ⟨rfl, rfl⟩⟩
      | some ex =>
        cases conn with
        | false =>
          unfold stop_hook_main
          rw [htr]
          exact ⟨Or.inl ⟨rfl, rfl⟩, Or.inl ⟨rfl, rfl⟩⟩
        | true =>
          cases tmpl with
          | false =>
            unfold stop_hook_main
            rw [htr]
            exact ⟨Or.inr ⟨ex, rfl, rfl, rfl⟩, Or.inl ⟨rfl, rfl⟩⟩
          | true =>
            cases olmo with
            | error u =>
              unfold stop_hook_main
              rw [htr]
              exact ⟨Or.inr ⟨ex, rfl, rfl, rfl⟩, Or.inl ⟨rfl, rfl⟩⟩
            | ok resp =>
              by_cases hi : (parse_memorables (ask_olmo resp)).isEmpty = true
              · unfold stop_hook_main
                rw [htr]
                simp only [hi, if_true, if_pos]
                exact ⟨Or.inr ⟨ex, rfl, rfl, rfl⟩, Or.inl ⟨rfl, rfl⟩⟩
              · unfold stop_hook_main
                rw [htr]
                simp only [Bool.not_eq_true] at hi
                simp only [hi]
                refine ⟨Or.inr ⟨ex, rfl, rfl, rfl⟩,
                  Or.inr ⟨resp, rfl, ?_, rfl, rfl⟩⟩
                intro he
                rw [he] at hi
                exact Bool.noConfusion hi

/-- The extracted text of the user event at index j of the transcript
(the empty string when the index does not hold a user event). -/
def userTextAt (lines : List Line) (j : Nat) : List Char :=
  match lines.get? j with
  | some (Line.user c) => extractUserText c
  | _ => []

/-- Declarative contribution of one content block to the forward scan:
a text block yields its stripped text when non-empty, everything else
yields nothing. -/
def blockTextSpec : ContentItem → Option (List Char)
  | ContentItem.text s =>
    if (pyStrip s).isEmpty then none else some (pyStrip s)
  | _ => none

theorem assistantBlockStep_eq (acc : List (List Char)) (it : ContentItem) :
    assistantBlockStep acc it = acc ++ (blockTextSpec it).toList := by
  cases it with
  | text s =>
    unfold assistantBlockStep blockTextSpec
    by_cases he : (pyStrip s).isEmpty = true
    · simp [he]
    · simp [he]
  | bare s => simp [assistantBlockStep, blockTextSpec]
  | typed t => simp [assistantBlockStep, blockTextSpec]

theorem assistant_foldl_eq (its : List ContentItem) : ∀ acc,
    its.foldl assistantBlockStep acc = acc ++ its.filterMap blockTextSpec := by
  induction its with
  | nil => intro acc; simp
  | cons it rest ih =>
    intro acc
    rw [List.foldl_cons, assistantBlockStep_eq, ih, List.filterMap_cons]
    cases blockTextSpec it <;> simp

theorem mem_assistantLineTexts (l : Line) (m : List Char)
    (h : m ∈ assistantLineTexts l) :
    ∃ its s, l = Line.assistant (Content.items its) ∧
      ContentItem.text s ∈ its ∧ m = pyStrip s ∧ m ≠ [] := by
  cases l with
  | user c => simp [assistantLineTexts] at h
  | other => simp [assistantLineTexts] at h
  | malformed => simp [assistantLineTexts] at h
  | assistant c =>
    cases c with
    | str s => simp [assistantLineTexts] at h
    | items its =>
      rw [show assistantLineTexts (Line.assistant (Content.items its)) =
        its.foldl assistantBlockStep [] from rfl, assistant_foldl_eq] at h
      simp only [List.nil_append] at h
      obtain ⟨it, hit, hspec⟩ := List.mem_filterMap.mp h
      cases it with
      | text s =>
        have hs2 : (if (pyStrip s).isEmpty = true then none
            else some (pyStrip s)) = some m := hspec
        by_cases he : (pyStrip s).isEmpty = true
        · rw [if_pos he] at hs2
          exact Option.noConfusion hs2
        · rw [if_neg he] at hs2
          refine ⟨its, s, rfl, hit, (Option.some.inj hs2).symm, ?_⟩
          rw [← Option.some.inj hs2]
          intro hnil
          rw [hnil] at he
          exact he rfl
      | bare s => exact Option.noConfusion hspec
      | typed t => exact Option.noConfusion hspec

theorem get?_drop_add (i : Nat) : ∀ (l : List Line) (k : Nat),
    (l.drop i).get? k = l.get? (i + k) := by
  induction i with
  | zero => intro l k; simp
  | succ i ih =>
    intro l k
    cases l with
    | nil => simp
    | cons x xs =>
      rw [show (x :: xs).drop (i + 1) = xs.drop i from rfl, ih,
        show (i + 1) + k = (i + k) + 1 from by omega]
      rfl

theorem mem_assistant_texts : ∀ (ls : List Line) (m : List Char),
    m ∈ assistant_texts ls →
    ∃ k its s, ls.get? k = some (Line.assistant (Content.items its)) ∧
      ContentItem.text s ∈ its ∧ m = pyStrip s ∧ m ≠ [] := by
  intro ls
  induction ls with
  | nil => intro m h; simp [assistant_texts] at h
  | cons l rest ih =>
    intro m h
    rw [show assistant_texts (l :: rest) =
      assistantLineTexts l ++ assistant_texts rest from rfl] at h
    rcases List.mem_append.mp h with h1 | h2
    · obtain ⟨its, s, hl, hs, hm, hne⟩ := mem_assistantLineTexts l m h1
      exact ⟨0, its, s, by rw [hl]; rfl, hs, hm, hne⟩
    · obtain ⟨k, its, s, hget, hs, hm, hne⟩ := ih m h2
      exact ⟨k + 1, its, s, hget, hs, hm, hne⟩

theorem lastUser_cons_eq (l : Line) (rest : List Line) :
    lastUserWithText (l :: rest) =
      (match lastUserWithText rest with
       | some (i, m) => some (i + 1, m)
       | none =>
         match l with
         | Line.user c =>
           if !(pyStrip (extractUserText c)).isEmpty then
             some (0, extractUserText c)
           else none
         | _ => none) := rfl

theorem lastUser_none_qualAt : ∀ (lines : List Line),
    lastUserWithText lines = none → ∀ k, qualAt lines k = false := by
  intro lines
  induction lines with
  | nil => intro _ k; rfl
  | cons l rest ih =>
    intro h k
    rw [lastUser_cons_eq] at h
    cases hr : lastUserWithText rest with
    | some p =>
      obtain ⟨i, m⟩ := p
      rw [hr] at h
      exact Option.noConfusion h
    | none =>
      rw [hr] at h
      cases k with
      | succ k' => exact ih hr k'
      | zero =>
        cases l with
        | user c =>
          have h2 : (if (!(pyStrip (extractUserText c)).isEmpty) = true then
              some (0, extractUserText c) else (none : Option (Nat × List Char)))
              = none := h
          by_cases hc : (!(pyStrip (extractUserText c)).isEmpty) = true
          · rw [if_pos hc] at h2
            exact Option.noConfusion h2
          · show userQualifies (Line.user c) = false
            unfold userQualifies
            simpa using hc
        | assistant c => rfl
        | other => rfl
        | malformed => rfl

theorem lastUser_some_spec : ∀ (lines : List Line) (j : Nat) (m : List Char),
    lastUserWithText lines = some (j, m) →
    qualAt lines j = true ∧ userTextAt lines j = m := by
  intro lines
  induction lines with
  | nil => intro j m h; exact Option.noConfusion h
  | cons l rest ih =>
    intro j m h
    rw [lastUser_cons_eq] at h
    cases hr : lastUserWithText rest with
    | some p =>
      obtain ⟨i, m'⟩ := p
      rw [hr] at h
      have hp := Option.some.inj h
      have hj : i + 1 = j := congrArg Prod.fst hp
      have hm : m' = m := congrArg Prod.snd hp
      subst hj
      subst hm
      exact ih i m' hr
    | none =>
      rw [hr] at h
      cases l with
      | user c =>
        have h2 : (if (!(pyStrip (extractUserText c)).isEmpty) = true then
            some (0, extractUserText c) else (none : Option (Nat × List Char)))
            = some (j, m) := h
        by_cases hc : (!(pyStrip (extractUserText c)).isEmpty) = true
        · rw [if_pos hc] at h2
          have hp := Option.some.inj h2
          have hj : (0 : Nat) = j := congrArg Prod.fst hp
          have hm : extractUserText c = m := congrArg Prod.snd hp
          subst hj
          subst hm
          constructor
          · show userQualifies (Line.user c) = true
            unfold userQualifies
            exact hc
          · rfl
        · rw [if_neg hc] at h2
          exact Option.noConfusion h2
      | assistant c => exact Option.noConfusion h
      | other => exact Option.noConfusion h
      | malformed => exact Option.noConfusion h

theorem lastUser_some_max : ∀ (lines : List Line) (j : Nat) (m : List Char),
    lastUserWithText lines = some (j, m) →
    ∀ k, j < k → qualAt lines k = false := by
  intro lines
  induction lines with
  | nil => intro j m h; exact Option.noConfusion h
  | cons l rest ih =>
    intro j m h k hk
    rw [lastUser_cons_eq] at h
    cases hr : lastUserWithText rest with
    | some p =>
      obtain ⟨i, m'⟩ := p
      rw [hr] at h
      have hp := Option.some.inj h
      have hj : i + 1 = j := congrArg Prod.fst hp
      have hm : m' = m := congrArg Prod.snd hp
      subst hj
      subst hm
      cases k with
      | zero => exact absurd hk (by omega)
      | succ k' => exact ih i m' hr k' (by omega)
    | none =>
      rw [hr] at h
      cases k with
      | zero =>
        cases l with
        | user c =>
          have h2 : (if (!(pyStrip (extractUserText c)).isEmpty) = true then
              some (0, extractUserText c) else (none : Option (Nat × List Char)))
              = some (j, m) := h
          by_cases hc : (!(pyStrip (extractUserText c)).isEmpty) = true
          · rw [if_pos hc] at h2
            have hj : (0 : Nat) = j := congrArg Prod.fst (Option.some.inj h2)
            omega
          · rw [if_neg hc] at h2
            exact Option.noConfusion h2
        | assistant c => exact Option.noConfusion h
        | other => exact Option.noConfusion h
        | malformed => exact Option.noConfusion h
      | succ k' => exact lastUser_none_qualAt rest hr k'

theorem parse_some_eq (lines : List Line) :
    parse_transcript_backwards (some lines) =
      (match lastUserWithText lines with
       | none => none
       | some (i, m) => some ⟨m, assistant_texts (lines.drop (i + 1))⟩) := rfl

/-- C3: for every transcript with at least one qualifying user-text
event, extraction succeeds and returns the text of the most recent such
event (tool-result-only user entries are skipped by the backward scan)
together with the assistant texts after it, each of which is the
stripped text of a text block of an assistant event strictly after the
selected event — never a tool payload; for every transcript with no
qualifying user-text event, and for a missing file, extraction returns
none rather than an error. -/
theorem claim_C3 :
    (∀ (lines : List Line) (k : Nat), qualAt lines k = true →
      ∃ j, qualAt lines j = true ∧ (∀ i, qualAt lines i = true → i ≤ j) ∧
        parse_transcript_backwards (some lines) =
          some ⟨userTextAt lines j, assistant_texts (lines.drop (j + 1))⟩ ∧
        (∀ m ∈ assistant_texts (lines.drop (j + 1)), ∃ i its s, j < i ∧
          lines.get? i = some (Line.assistant (Content.items its)) ∧
          ContentItem.text s ∈ its ∧ m = pyStrip s ∧ m ≠ [])) ∧
    (∀ lines : List Line, (∀ k, qualAt lines k = false) →
      parse_transcript_backwards (some lines) = none) ∧
    parse_transcript_backwards none = none := by
  refine ⟨?_, ?_, rfl⟩
  · intro lines k hk
    cases h : lastUserWithText lines with
    | none =>
      rw [lastUser_none_qualAt lines h k] at hk
      exact Bool.noConfusion hk
    | some p =>
      obtain ⟨j, m⟩ := p
      refine ⟨j, (lastUser_some_spec lines j m h).1, ?_, ?_, ?_⟩
      · intro i hi
        by_contra hgt
        push_neg at hgt
        rw [lastUser_some_max lines j m h i hgt] at hi
        exact Bool.noConfusion hi
      · rw [parse_some_eq, h, (lastUser_some_spec lines j m h).2]
      · intro m' hm'
        obtain ⟨k', its, s, hget, hs, hms, hne⟩ :=
          mem_assistant_texts (lines.drop (j + 1)) m' hm'
        refine ⟨j + 1 + k', its, s, by omega, ?_, hs, hms, hne⟩
        rw [← get?_drop_add]
        exact hget
  · intro lines hall
    cases h : lastUserWithText lines with
    | none =>
      rw [parse_some_eq, h]
    | some p =>
      obtain ⟨j, m⟩ := p
      have := (lastUser_some_spec lines j m h).1
      rw [hall j] at this
      exact Bool.noConfusion this

theorem claim_C3_witness :
    ∃ j, qualAt [Line.user (Content.str (chars "hi"))] j = true ∧
      (∀ i, qualAt [Line.user (Content.str (chars "hi"))] i = true → i ≤ j) ∧
      parse_transcript_backwards (some [Line.user (Content.str (chars "hi"))]) =
        some ⟨userTextAt [Line.user (Content.str (chars "hi"))] j,
              assistant_texts ([Line.user (Content.str (chars "hi"))].drop (j + 1))⟩ ∧
      (∀ m ∈ assistant_texts ([Line.user (Content.str (chars "hi"))].drop (j + 1)),
        ∃ i its s, j < i ∧
          [Line.user (Content.str (chars "hi"))].get? i =
            some (Line.assistant (Content.items its)) ∧
          ContentItem.text s ∈ its ∧ m = pyStrip s ∧ m ≠ []) :=
  claim_C3.1 [Line.user (Content.str (chars "hi"))] 0 (by decide)

/-- C4: the backward scan selects the most recent qualifying user-text
event, so no qualifying user event occurs at any later index; the
Exchange collects the assistant texts of the whole suffix after the
selected event, and a fortiori no assistant text after a later
qualifying user event is ever included (no such event exists). -/
theorem claim_C4 (lines : List Line) (j : Nat) (m : List Char)
    (h : lastUserWithText lines = some (j, m)) :
    parse_transcript_backwards (some lines) =
      some ⟨m, assistant_texts (lines.drop (j + 1))⟩ ∧
    (∀ k, j < k → qualAt lines k = false) := by
  constructor
  · rw [parse_some_eq, h]
  · exact fun k hk => lastUser_some_max lines j m h k hk

theorem claim_C4_witness :
    parse_transcript_backwards
        (some [Line.user (Content.str (chars "hi")),
               Line.user (Content.items [ContentItem.typed (chars "tool_result")]),
               Line.assistant (Content.items [ContentItem.text (chars "later")])]) =
      some ⟨chars "hi",
        assistant_texts
          ([Line.user (Content.str (chars "hi")),
            Line.user (Content.items [ContentItem.typed (chars "tool_result")]),
            Line.assistant (Content.items [ContentItem.text (chars "later")])].drop 1)⟩ ∧
    (∀ k, 0 < k →
      qualAt [Line.user (Content.str (chars "hi")),
              Line.user (Content.items [ContentItem.typed (chars "tool_result")]),
              Line.assistant (Content.items [ContentItem.text (chars "later")])] k = false) :=
  claim_C4 _ 0 (chars "hi") (by decide)
